import Mathlib

/-!
Verification of the goat-cafe cart/order subsystem.

Shallow embedding of:
- `config/checkToken.js` (JWT middleware, embedded from source);
- the Order model virtuals `total` and `totalQty`
  (README.md, models/order.js listing, embedded from source);
- the Cart Manager operations `getCart`, `addItem`, `setItemQuantity`,
  `checkout`, `history`.  The file `controllers/api/orders.js` that
  `routes/api/orders.js` imports is not part of the sources, so these
  operations are modelled from the specification (section 4.1).

Object ids (users, items, orders) are modelled as `Nat`; JS numbers used
as money are modelled as `ℚ`; quantities as `Int`.
-/

namespace GoatCafe

/-- Catalog item, from the itemSchema listing in README.md:
fields name, emoji, category, price. -/
structure Item where
  name : String
  emoji : String
  category : String
  price : ℚ
  deriving DecidableEq, Repr

/-- Stored line item of an order, from the orderSchema listing in README.md:
`items: [{ item: ObjectId ref Item, qty: Number }]`.  The `item` field is a
reference (an id), not the item document. -/
structure LineItem where
  item : Nat
  qty : Int
  deriving DecidableEq, Repr

/-- An Order document, from the orderSchema listing in README.md:
`user` (ref), `items` (line items), `isPaid` (default false), plus the
`createdAt`/`updatedAt` timestamps added by `timestamps: true`.
`id` models the Mongo `_id`. -/
structure Order where
  id : Nat
  user : Nat
  items : List LineItem
  isPaid : Bool
  createdAt : Nat
  updatedAt : Nat
  deriving DecidableEq, Repr

/-- A populated line item: after population against the catalog the `item` field
holds the catalog document itself. -/
structure PopulatedLineItem where
  item : Item
  qty : Int
  deriving DecidableEq, Repr

/-- Embeds the total virtual of orderSchema from README.md:
`this.items.reduce((sum, item) => sum + (item.item.price * item.qty), 0)`. -/
def total (items : List PopulatedLineItem) : ℚ :=
  items.foldl (fun sum li => sum + li.item.price * (li.qty : ℚ)) 0

/-- Embeds the totalQty virtual of orderSchema from README.md:
`this.items.reduce((sum, item) => sum + item.qty, 0)`. -/
def totalQty (items : List PopulatedLineItem) : Int :=
  items.foldl (fun sum li => sum + li.qty) 0

/-- Population of stored line items against the current catalog, the effect
of mongoose population of the item references at read time: each item reference is replaced
by the catalog document it currently resolves to. -/
def populate (catalog : Nat → Item) (items : List LineItem) :
    List PopulatedLineItem :=
  items.map (fun li => { item := catalog li.item, qty := li.qty })

/-- The total displayed for an order: the `total` virtual evaluated on the
order populated against the current catalog. -/
def displayedTotal (catalog : Nat → Item) (o : Order) : ℚ :=
  total (populate catalog o.items)

/-- Accumulated quantity that an order holds for one item reference. -/
def qtyOfItem (itemId : Nat) (items : List LineItem) : Int :=
  ((items.filter (fun li => li.item == itemId)).map LineItem.qty).sum

end GoatCafe

namespace CheckToken

/-- Payload stored under `user` in the JWT, not interpreted by the middleware. -/
structure UserPayload where
  id : Nat
  name : String
  deriving DecidableEq, Repr

/-- Outcome of `jwt.verify(token, SECRET, cb)`: either the callback gets
`(null, decoded)` with `decoded.user` and `decoded.exp`, or it gets an
error. -/
inductive VerifyOutcome where
  | ok (user : UserPayload) (exp : Int)
  | err
  deriving DecidableEq, Repr

/-- Observable effect of the middleware on the request cycle:
`user`/`exp` as assigned on `req` (`none` models JS null), `expAssigned`
records whether `req.exp` was written at all, `nextCalled` whether `next()`
ran, `responded` whether the middleware itself sent a response. -/
structure MiddlewareResult where
  user : Option UserPayload
  exp : Option Int
  expAssigned : Bool
  nextCalled : Bool
  responded : Bool
  deriving DecidableEq, Repr

/-- The JS `str.split(c)` for a one-character separator, on the character
list of the string: `"a b" ↦ ["a","b"]`, `"" ↦ [""]`, `"a  b" ↦
["a","","b"]`. -/
def splitOnChar (c : Char) : List Char → List (List Char)
  | [] => [[]]
  | x :: xs =>
      match splitOnChar c xs with
      | [] => [[x]]
      | w :: ws => if x = c then [] :: w :: ws else (x :: w) :: ws

/-- The token extracted by the middleware, the word at
index 1, or `none` when the header has no second word (the JS value is
then undefined, which `jwt.verify` rejects). -/
def tokenOf (header : String) : Option String :=
  ((splitOnChar ' ' header.data).map String.mk).get? 1

/-- Embeds `config/checkToken.js`:
reads the Authorization header (`none` = absent; the empty string is falsy
in JS, taking the else branch); splits on a space and takes index 1
(missing index gives undefined, which `jwt.verify` rejects); on verify
error sets `req.user`/`req.exp` to null, on success sets them from the
payload; both branches call `next()` and never respond. -/
def checkToken (authHeader : Option String)
    (verify : String → VerifyOutcome) : MiddlewareResult :=
  match authHeader with
  | none =>
      { user := none, exp := none, expAssigned := false,
        nextCalled := true, responded := false }
  | some header =>
      if header = "" then
        { user := none, exp := none, expAssigned := false,
          nextCalled := true, responded := false }
      else
        match tokenOf header with
        | none =>
            { user := none, exp := none, expAssigned := true,
              nextCalled := true, responded := false }
        | some token =>
            match verify token with
            | .err =>
                { user := none, exp := none, expAssigned := true,
                  nextCalled := true, responded := false }
            | .ok u e =>
                { user := some u, exp := some (e * 1000), expAssigned := true,
                  nextCalled := true, responded := false }

/-- Fixed verifier used to witness claim C10: accepts exactly the token
"good". -/
def demoVerify : String → VerifyOutcome :=
  fun t => if t = "good" then .ok { id := 3, name := "alice" } 5 else .err

end CheckToken

namespace GoatCafe

/-- Modelled from the spec: error taxonomy of the Cart Manager
(`ItemNotFound`, `ItemNotInCart`, `EmptyCartCheckout`); the controller file
`controllers/api/orders.js` that raises them is missing from the sources. -/
inductive CartError where
  | ItemNotFound
  | ItemNotInCart
  | EmptyCartCheckout
  deriving DecidableEq, Repr

/-- Modelled from the spec: the backing store seen by the Cart Repository —
the persisted Order documents plus an id allocator and a clock that stamps
`createdAt`/`updatedAt`. -/
structure Store where
  orders : List Order
  nextId : Nat
  time : Nat
  deriving DecidableEq, Repr

/-- The store before any request: no orders. -/
def emptyStore : Store := { orders := [], nextId := 0, time := 0 }

/-- Predicate for the ACTIVE cart of user u: owner matches and
`isPaid` is false. -/
def isCartOf (u : Nat) (o : Order) : Bool :=
  o.user == u && !o.isPaid

/-- Modelled from the spec: `findActiveCartByUser` — the repository query
filtering on owner + `isPaid=false`. -/
def findCart (s : Store) (u : Nat) : Option Order :=
  s.orders.find? (isCartOf u)

/-- Modelled from the spec: `save(order)` — persists mutations to an
existing order (matched by id), stamping `updatedAt`; returns the saved
document and the new store. -/
def saveOrder (s : Store) (o : Order) : Order × Store :=
  let o' := { o with updatedAt := s.time }
  (o', { s with
          orders := s.orders.map (fun x => if x.id == o.id then o' else x),
          time := s.time + 1 })

/-- Modelled from the spec: `createCart(userId)` contents — the empty
ACTIVE order lazily created for a user, with a fresh id. -/
def freshOrder (s : Store) (u : Nat) : Order :=
  { id := s.nextId, user := u, items := [], isPaid := false,
    createdAt := s.time, updatedAt := s.time }

/-- Modelled from the spec: `getCart(userId)` — the ACTIVE order of the
user, lazily creating an empty one when none exists. -/
def getCart (s : Store) (u : Nat) : Order × Store :=
  match findCart s u with
  | some o => (o, s)
  | none =>
      (freshOrder s u,
       { s with orders := s.orders ++ [freshOrder s u],
                nextId := s.nextId + 1, time := s.time + 1 })

/-- Modelled from the spec: the line-item upsert inside `addItem` — if a
line item for the id exists its quantity is incremented, otherwise a new
line item is appended. -/
def addLineItem (items : List LineItem) (itemId : Nat) (qty : Int) :
    List LineItem :=
  if items.any (fun li => li.item == itemId) then
    items.map (fun li =>
      if li.item == itemId then { li with qty := li.qty + qty } else li)
  else
    items ++ [{ item := itemId, qty := qty }]

/-- Modelled from the spec: `addItem(userId, itemId, qty)` — validates the
item against the catalog (`ItemNotFound` when absent), loads or creates
the ACTIVE order, upserts the line item, and saves. -/
def addItem (catalog : Nat → Option Item) (s : Store) (u itemId : Nat)
    (qty : Int) : Except CartError Order × Store :=
  match catalog itemId with
  | none => (.error .ItemNotFound, s)
  | some _ =>
      let g := getCart s u
      let sv := saveOrder g.2 { g.1 with items := addLineItem g.1.items itemId qty }
      (.ok sv.1, sv.2)

/-- Modelled from the spec: the quantity rewrite inside `setItemQuantity` —
a non-positive quantity removes the line item entirely, a positive one
overwrites the stored quantity. -/
def setQty (items : List LineItem) (itemId : Nat) (newQty : Int) :
    List LineItem :=
  if newQty ≤ 0 then
    items.filter (fun li => li.item != itemId)
  else
    items.map (fun li =>
      if li.item == itemId then { li with qty := newQty } else li)

/-- Modelled from the spec: `setItemQuantity(userId, itemId, newQty)` —
operates only on an existing line item (`ItemNotInCart` otherwise, never
creating one); the order itself is kept even when it becomes empty. -/
def setItemQuantity (s : Store) (u itemId : Nat) (newQty : Int) :
    Except CartError Order × Store :=
  let g := getCart s u
  if g.1.items.any (fun li => li.item == itemId) then
    let sv := saveOrder g.2 { g.1 with items := setQty g.1.items itemId newQty }
    (.ok sv.1, sv.2)
  else
    (.error .ItemNotInCart, g.2)

/-- Modelled from the spec: `checkout(userId)` — requires an ACTIVE order
with at least one line item (`EmptyCartCheckout` otherwise, leaving state
unchanged); on success flips `isPaid` to true and saves. -/
def checkout (s : Store) (u : Nat) : Except CartError Order × Store :=
  match findCart s u with
  | none => (.error .EmptyCartCheckout, s)
  | some cart =>
      if cart.items.isEmpty then
        (.error .EmptyCartCheckout, s)
      else
        let sv := saveOrder s { cart with isPaid := true }
        (.ok sv.1, sv.2)

/-- Modelled from the spec: the Order History Reader — the orders of the
user with `isPaid=true`, most recently checked out (saved) first. -/
def history (s : Store) (u : Nat) : List Order :=
  List.insertionSort (fun a b => b.updatedAt ≤ a.updatedAt)
    (s.orders.filter (fun o => o.user == u && o.isPaid))

/-- One Cart Manager request, for quantifying over operation sequences. -/
inductive CartOp where
  | get (u : Nat)
  | add (catalog : Nat → Option Item) (u itemId : Nat) (qty : Int)
  | setQ (u itemId : Nat) (newQty : Int)
  | chk (u : Nat)

/-- State reached after serving one request. -/
def applyOp (s : Store) : CartOp → Store
  | .get u => (getCart s u).2
  | .add catalog u itemId qty => (addItem catalog s u itemId qty).2
  | .setQ u itemId newQty => (setItemQuantity s u itemId newQty).2
  | .chk u => (checkout s u).2

/-- State reached after serving a sequence of requests. -/
def runOps (ops : List CartOp) (s : Store) : Store :=
  ops.foldl applyOp s

/-- Number of ACTIVE orders the store holds for user u. -/
def activeCount (s : Store) (u : Nat) : Nat :=
  s.orders.countP (isCartOf u)

/-- Line-item well-formedness of one order, the spec invariant that no two
line items of a given order reference the same item. -/
def LiWF (items : List LineItem) : Prop :=
  (items.map LineItem.item).Nodup

/-- Store well-formedness: distinct order ids, ids below the allocator,
the single-active-cart invariant, and line-item well-formedness. -/
def Inv (s : Store) : Prop :=
  (s.orders.map Order.id).Nodup ∧
  (∀ o ∈ s.orders, o.id < s.nextId) ∧
  (∀ u, activeCount s u ≤ 1) ∧
  (∀ o ∈ s.orders, LiWF o.items)

/-- The pizza item of the worked example in the spec (price 10.00). -/
def pizzaItem : Item := { name := "Pizza", emoji := "P", category := "food",
                          price := 10 }

/-- The soda item of the worked example in the spec (price 2.50). -/
def sodaItem : Item := { name := "Soda", emoji := "S", category := "drinks",
                         price := 5 / 2 }

/-- Catalog used to witness claim C8: every id resolves to the pizza
item. -/
def pizzaCatalog : Nat → Item := fun _ => pizzaItem

/-- Paid order used to witness claim C8: two units of item 7. -/
def paidPizzaOrder : Order :=
  { id := 0, user := 1, items := [{ item := 7, qty := 2 }], isPaid := true,
    createdAt := 0, updatedAt := 0 }

/-- Catalog used in concrete witnesses of the cart operations: every id
resolves to the pizza item. -/
def demoCatalog : Nat → Option Item := fun _ => some pizzaItem

/-- Store reached from the empty store after user 1 adds one unit of
item 7. -/
def demoStore : Store :=
  runOps [CartOp.add demoCatalog 1 7 1] emptyStore

/-- Store reached from `demoStore` after user 1 checks out. -/
def demoStoreAfter : Store :=
  applyOp demoStore (CartOp.chk 1)

/-- The order that the checkout from `demoStore` finalizes. -/
def demoPaid : Order :=
  { id := 0, user := 1, items := [{ item := 7, qty := 1 }], isPaid := true,
    createdAt := 0, updatedAt := 2 }

/-- Store in which user 1 holds a lazily created, still empty cart. -/
def demoEmptyCartStore : Store :=
  applyOp emptyStore (CartOp.get 1)

/-- The empty cart that `demoEmptyCartStore` holds for user 1. -/
def demoEmptyCart : Order :=
  { id := 0, user := 1, items := [], isPaid := false,
    createdAt := 0, updatedAt := 0 }

theorem isCartOf_iff {u : Nat} {o : Order} :
    isCartOf u o = true ↔ o.user = u ∧ o.isPaid = false := by
  simp [isCartOf]

theorem findCart_mem {s : Store} {u : Nat} {o : Order}
    (h : findCart s u = some o) : o ∈ s.orders :=
  List.mem_of_find?_eq_some h

theorem findCart_isCart {s : Store} {u : Nat} {o : Order}
    (h : findCart s u = some o) : isCartOf u o = true :=
  List.find?_some h

theorem findCart_none {s : Store} {u : Nat} (h : findCart s u = none) :
    ∀ o ∈ s.orders, isCartOf u o = false := by
  intro o ho
  have := List.find?_eq_none.mp h o ho
  simpa using this

theorem activeCount_eq_zero {s : Store} {u : Nat}
    (h : findCart s u = none) : activeCount s u = 0 := by
  rw [activeCount, List.countP_eq_zero]
  intro o ho
  simpa using findCart_none h o ho

theorem getCart_of_found {s : Store} {u : Nat} {o : Order}
    (h : findCart s u = some o) : getCart s u = (o, s) := by
  simp [getCart, h]

theorem getCart_of_none {s : Store} {u : Nat} (h : findCart s u = none) :
    getCart s u =
      (freshOrder s u,
       { s with orders := s.orders ++ [freshOrder s u],
                nextId := s.nextId + 1, time := s.time + 1 }) := by
  simp [getCart, h]

theorem isCartOf_freshOrder (s : Store) (u : Nat) :
    isCartOf u (freshOrder s u) = true := by
  simp [isCartOf, freshOrder]

theorem getCart_isCart (s : Store) (u : Nat) :
    isCartOf u (getCart s u).1 = true := by
  rcases h : findCart s u with _ | o
  · rw [getCart_of_none h]; exact isCartOf_freshOrder s u
  · rw [getCart_of_found h]; exact findCart_isCart h

theorem getCart_mem (s : Store) (u : Nat) :
    (getCart s u).1 ∈ (getCart s u).2.orders := by
  rcases h : findCart s u with _ | o
  · rw [getCart_of_none h]; simp
  · rw [getCart_of_found h]; exact findCart_mem h

theorem getCart_findCart (s : Store) (u : Nat) :
    findCart (getCart s u).2 u = some (getCart s u).1 := by
  rcases h : findCart s u with _ | o
  · rw [getCart_of_none h]
    simp only [findCart, List.find?_append]
    rw [findCart] at h
    rw [h]
    simp [isCartOf_freshOrder]
  · rw [getCart_of_found h]; exact h

theorem getCart_idem (s : Store) (u : Nat) :
    getCart (getCart s u).2 u = ((getCart s u).1, (getCart s u).2) :=
  getCart_of_found (getCart_findCart s u)

theorem saveOrder_def (s : Store) (o : Order) :
    saveOrder s o =
      ({ o with updatedAt := s.time },
       { s with
          orders := s.orders.map (fun x =>
            if x.id == o.id then { o with updatedAt := s.time } else x),
          time := s.time + 1 }) := rfl

theorem saveOrder_ids (s : Store) (o : Order) :
    (saveOrder s o).2.orders.map Order.id = s.orders.map Order.id := by
  rw [saveOrder_def]
  simp only [List.map_map]
  apply List.map_congr_left
  intro x _
  by_cases h : x.id = o.id
  · simp [h]
  · simp [h]

theorem saveOrder_nextId (s : Store) (o : Order) :
    (saveOrder s o).2.nextId = s.nextId := rfl

theorem countP_le_one_unique {α : Type} {p : α → Bool} :
    ∀ {l : List α}, l.countP p ≤ 1 →
      ∀ a ∈ l, ∀ b ∈ l, p a = true → p b = true → a = b := by
  intro l
  induction l with
  | nil => intro _ a ha; cases ha
  | cons x t ih =>
      intro hle a ha b hb hpa hpb
      rcases List.mem_cons.mp ha with rfl | hat
      · rcases List.mem_cons.mp hb with rfl | hbt
        · rfl
        · exfalso
          have h1 : 0 < t.countP p := List.countP_pos_iff.mpr ⟨b, hbt, hpb⟩
          rw [List.countP_cons_of_pos _ _ hpa] at hle
          omega
      · rcases List.mem_cons.mp hb with rfl | hbt
        · exfalso
          have h1 : 0 < t.countP p := List.countP_pos_iff.mpr ⟨a, hat, hpa⟩
          rw [List.countP_cons_of_pos _ _ hpb] at hle
          omega
        · have hle' : t.countP p ≤ 1 := by
            rw [List.countP_cons] at hle
            omega
          exact ih hle' a hat b hbt hpa hpb

theorem ids_below_of_map_eq {l l' : List Order} {n : Nat}
    (hmap : l'.map Order.id = l.map Order.id)
    (h : ∀ o ∈ l, o.id < n) : ∀ o ∈ l', o.id < n := by
  intro o ho
  have : o.id ∈ l.map Order.id := hmap ▸ List.mem_map_of_mem Order.id ho
  rcases List.mem_map.mp this with ⟨y, hy, hyid⟩
  exact hyid ▸ h y hy

theorem inv_emptyStore : Inv emptyStore := by
  refine ⟨by simp [emptyStore], by simp [emptyStore], ?_, by simp [emptyStore]⟩
  intro u; simp [activeCount, emptyStore]

theorem inv_getCart {s : Store} (u : Nat) (h : Inv s) :
    Inv (getCart s u).2 := by
  obtain ⟨hnd, hlt, hac, hli⟩ := h
  rcases hfc : findCart s u with _ | o
  · rw [getCart_of_none hfc]
    refine ⟨?_, ?_, ?_, ?_⟩
    · simp only [List.map_append, List.map_cons, List.map_nil]
      rw [← List.concat_eq_append]
      refine List.Nodup.concat ?_ hnd
      intro hmem
      rcases List.mem_map.mp hmem with ⟨y, hy, hyid⟩
      have h2 : y.id = s.nextId := hyid
      exact absurd h2 (Nat.ne_of_lt (hlt y hy))
    · intro o ho
      rcases List.mem_append.mp ho with ho | ho
      · exact Nat.lt_succ_of_lt (hlt o ho)
      · simp only [List.mem_singleton] at ho
        subst ho
        exact Nat.lt_succ_self _
    · intro v
      show List.countP _ _ ≤ 1
      rw [List.countP_append]
      by_cases hv : v = u
      · subst hv
        have h0 : s.orders.countP (isCartOf v) = 0 := activeCount_eq_zero hfc
        rw [h0]
        simp [isCartOf_freshOrder]
      · have h1 : List.countP (isCartOf v) [freshOrder s u] = 0 := by
          simp [isCartOf, freshOrder, Ne.symm hv]
        rw [h1]
        simpa using hac v
    · intro o ho
      rcases List.mem_append.mp ho with ho | ho
      · exact hli o ho
      · simp only [List.mem_singleton] at ho
        subst ho
        simp [LiWF, freshOrder]
  · rw [getCart_of_found hfc]
    exact ⟨hnd, hlt, hac, hli⟩

theorem saveOrder_countP_eq {s : Store} {o : Order} (p : Order → Bool)
    (hp : ∀ x ∈ s.orders, x.id = o.id →
            p { o with updatedAt := s.time } = p x) :
    (saveOrder s o).2.orders.countP p = s.orders.countP p := by
  rw [saveOrder_def]
  simp only
  rw [List.countP_map]
  apply List.countP_congr
  intro x hx
  by_cases h : x.id = o.id
  · simp only [Function.comp_apply, h, beq_self_eq_true, if_true]
    rw [hp x hx h]
  · simp [Function.comp, h]

theorem saveOrder_countP_le {s : Store} {o : Order} (p : Order → Bool)
    (hp : p { o with updatedAt := s.time } = false) :
    (saveOrder s o).2.orders.countP p ≤ s.orders.countP p := by
  rw [saveOrder_def]
  simp only
  rw [List.countP_map]
  apply List.countP_mono_left
  intro x _ hpx
  by_cases h : x.id = o.id
  · rw [Function.comp_apply, if_pos (by simpa using h), hp] at hpx
    cases hpx
  · simpa [Function.comp, h] using hpx

theorem saveOrder_mem_liwf {s : Store} {o : Order}
    (hli : ∀ x ∈ s.orders, LiWF x.items) (hlo : LiWF o.items) :
    ∀ x ∈ (saveOrder s o).2.orders, LiWF x.items := by
  rw [saveOrder_def]
  intro x hx
  simp only [List.mem_map] at hx
  rcases hx with ⟨y, hy, rfl⟩
  by_cases h : y.id = o.id
  · simpa [h] using hlo
  · simpa [h] using hli y hy

theorem inv_saveOrder_cart {s : Store} {cart : Order}
    {items : List LineItem} (hinv : Inv s) (hmem : cart ∈ s.orders)
    (hli : LiWF items) :
    Inv (saveOrder s { cart with items := items }).2 := by
  obtain ⟨hnd, hlt, hac, hliw⟩ := hinv
  refine ⟨?_, ?_, ?_, ?_⟩
  · rw [saveOrder_ids]; exact hnd
  · rw [saveOrder_nextId]
    exact ids_below_of_map_eq (saveOrder_ids _ _) hlt
  · intro v
    show List.countP _ _ ≤ 1
    rw [saveOrder_countP_eq]
    · exact hac v
    · intro x hx hid
      have hx_eq : x = cart :=
        List.inj_on_of_nodup_map hnd hx hmem hid
      subst hx_eq
      simp [isCartOf]
  · exact saveOrder_mem_liwf hliw hli

theorem inv_saveOrder_paid {s : Store} {cart : Order}
    (hinv : Inv s) (hmem : cart ∈ s.orders) :
    Inv (saveOrder s { cart with isPaid := true }).2 := by
  obtain ⟨hnd, hlt, hac, hliw⟩ := hinv
  refine ⟨?_, ?_, ?_, ?_⟩
  · rw [saveOrder_ids]; exact hnd
  · rw [saveOrder_nextId]
    exact ids_below_of_map_eq (saveOrder_ids _ _) hlt
  · intro v
    show List.countP _ _ ≤ 1
    refine le_trans (saveOrder_countP_le _ ?_) (hac v)
    simp [isCartOf]
  · exact saveOrder_mem_liwf hliw (hliw cart hmem)

theorem LiWF_addLineItem {items : List LineItem} {itemId : Nat}
    {qty : Int} (h : LiWF items) : LiWF (addLineItem items itemId qty) := by
  rw [addLineItem]
  by_cases hany : items.any (fun li => li.item == itemId) = true
  · rw [if_pos hany]
    have hmap : (items.map (fun li =>
        if li.item == itemId then { li with qty := li.qty + qty } else li)).map
          LineItem.item = items.map LineItem.item := by
      rw [List.map_map]
      apply List.map_congr_left
      intro li _
      by_cases hli : li.item = itemId
      · simp [hli]
      · simp [hli]
    rw [LiWF, hmap]
    exact h
  · rw [if_neg hany]
    rw [LiWF, List.map_append, List.map_cons, List.map_nil,
        ← List.concat_eq_append]
    refine List.Nodup.concat ?_ h
    intro hmem
    rcases List.mem_map.mp hmem with ⟨li, hli, hid⟩
    have hany' := List.any_eq_false.mp (Bool.not_eq_true _ ▸ hany)
    exact hany' li hli (by simpa using hid)

theorem LiWF_setQty {items : List LineItem} {itemId : Nat}
    {newQty : Int} (h : LiWF items) : LiWF (setQty items itemId newQty) := by
  rw [setQty]
  by_cases hq : newQty ≤ 0
  · rw [if_pos hq]
    exact List.Nodup.sublist (List.Sublist.map _ (List.filter_sublist _)) h
  · rw [if_neg hq]
    have hmap : (items.map (fun li =>
        if li.item == itemId then { li with qty := newQty } else li)).map
          LineItem.item = items.map LineItem.item := by
      rw [List.map_map]
      apply List.map_congr_left
      intro li _
      by_cases hli : li.item = itemId
      · simp [hli]
      · simp [hli]
    rw [LiWF, hmap]
    exact h

theorem inv_addItem (catalog : Nat → Option Item) {s : Store}
    (u itemId : Nat) (qty : Int) (h : Inv s) :
    Inv (addItem catalog s u itemId qty).2 := by
  rcases hcat : catalog itemId with _ | itm
  · simpa [addItem, hcat] using h
  · have h1 := inv_getCart u h
    have hmem := getCart_mem s u
    have hli : LiWF (getCart s u).1.items := h1.2.2.2 _ hmem
    simp only [addItem, hcat]
    exact inv_saveOrder_cart h1 hmem (LiWF_addLineItem hli)

theorem inv_setItemQuantity {s : Store} (u itemId : Nat) (newQty : Int)
    (h : Inv s) : Inv (setItemQuantity s u itemId newQty).2 := by
  have h1 := inv_getCart u h
  have hmem := getCart_mem s u
  have hli : LiWF (getCart s u).1.items := h1.2.2.2 _ hmem
  by_cases hany : (getCart s u).1.items.any (fun li => li.item == itemId) = true
  · simp only [setItemQuantity, hany, if_true]
    exact inv_saveOrder_cart h1 hmem (LiWF_setQty hli)
  · simp only [setItemQuantity, hany, if_false, Bool.false_eq_true]
    exact h1

theorem inv_checkout {s : Store} (u : Nat) (h : Inv s) :
    Inv (checkout s u).2 := by
  rcases hfc : findCart s u with _ | cart
  · simpa [checkout, hfc] using h
  · by_cases hemp : cart.items.isEmpty
    · simpa [checkout, hfc, hemp] using h
    · simp only [checkout, hfc, hemp, if_false, Bool.false_eq_true]
      exact inv_saveOrder_paid h (findCart_mem hfc)

theorem inv_applyOp {s : Store} (op : CartOp) (h : Inv s) :
    Inv (applyOp s op) := by
  cases op with
  | get u => exact inv_getCart u h
  | add catalog u itemId qty => exact inv_addItem catalog u itemId qty h
  | setQ u itemId newQty => exact inv_setItemQuantity u itemId newQty h
  | chk u => exact inv_checkout u h

theorem inv_runOps (ops : List CartOp) :
    ∀ s : Store, Inv s → Inv (runOps ops s) := by
  induction ops with
  | nil => intro s h; exact h
  | cons op rest ih =>
      intro s h
      rw [runOps, List.foldl_cons]
      exact ih _ (inv_applyOp op h)

theorem saveOrder_mem_of_ne {s : Store} {o o' : Order}
    (ho : o ∈ s.orders) (hne : o.id ≠ o'.id) :
    o ∈ (saveOrder s o').2.orders := by
  rw [saveOrder_def]
  exact List.mem_map.mpr ⟨o, ho, by simp [hne]⟩

theorem paid_ne_cart_id {s : Store} {o cart : Order}
    (hinv : Inv s) (ho : o ∈ s.orders) (hp : o.isPaid = true)
    (hcart : cart ∈ s.orders) (hcartp : cart.isPaid = false) :
    o.id ≠ cart.id := by
  intro hid
  have : o = cart := List.inj_on_of_nodup_map hinv.1 ho hcart hid
  rw [this, hcartp] at hp
  cases hp

theorem paid_mem_getCart {s : Store} {o : Order} (u : Nat)
    (ho : o ∈ s.orders) : o ∈ (getCart s u).2.orders := by
  rcases hfc : findCart s u with _ | c
  · rw [getCart_of_none hfc]
    exact List.mem_append_left _ ho
  · rw [getCart_of_found hfc]
    exact ho

theorem paid_mem_applyOp {s : Store} (op : CartOp) {o : Order}
    (hinv : Inv s) (ho : o ∈ s.orders) (hp : o.isPaid = true) :
    o ∈ (applyOp s op).orders := by
  cases op with
  | get u => exact paid_mem_getCart u ho
  | add catalog u itemId qty =>
      rcases hcat : catalog itemId with _ | itm
      · simpa [applyOp, addItem, hcat] using ho
      · simp only [applyOp, addItem, hcat]
        have h1 := inv_getCart u hinv
        have hmem := getCart_mem s u
        have hcartp : (getCart s u).1.isPaid = false :=
          (isCartOf_iff.mp (getCart_isCart s u)).2
        have ho1 : o ∈ (getCart s u).2.orders := paid_mem_getCart u ho
        have hne : o.id ≠ (getCart s u).1.id :=
          paid_ne_cart_id h1 ho1 hp hmem hcartp
        exact saveOrder_mem_of_ne ho1 hne
  | setQ u itemId newQty =>
      by_cases hany :
          (getCart s u).1.items.any (fun li => li.item == itemId) = true
      · simp only [applyOp, setItemQuantity, hany, if_true]
        have h1 := inv_getCart u hinv
        have hmem := getCart_mem s u
        have hcartp : (getCart s u).1.isPaid = false :=
          (isCartOf_iff.mp (getCart_isCart s u)).2
        have ho1 : o ∈ (getCart s u).2.orders := paid_mem_getCart u ho
        have hne : o.id ≠ (getCart s u).1.id :=
          paid_ne_cart_id h1 ho1 hp hmem hcartp
        exact saveOrder_mem_of_ne ho1 hne
      · simp only [applyOp, setItemQuantity, hany, if_false,
          Bool.false_eq_true]
        exact paid_mem_getCart u ho
  | chk u =>
      rcases hfc : findCart s u with _ | cart
      · simpa [applyOp, checkout, hfc] using ho
      · by_cases hemp : cart.items.isEmpty
        · simpa [applyOp, checkout, hfc, hemp] using ho
        · simp only [applyOp, checkout, hfc, hemp, if_false,
            Bool.false_eq_true]
          have hcartp : cart.isPaid = false :=
            (isCartOf_iff.mp (findCart_isCart hfc)).2
          have hne : o.id ≠ cart.id :=
            paid_ne_cart_id hinv ho hp (findCart_mem hfc) hcartp
          exact saveOrder_mem_of_ne ho hne

theorem paid_mem_runOps (ops : List CartOp) :
    ∀ {s : Store} {o : Order}, Inv s → o ∈ s.orders → o.isPaid = true →
      o ∈ (runOps ops s).orders := by
  induction ops with
  | nil => intro s o _ ho _; exact ho
  | cons op rest ih =>
      intro s o hinv ho hp
      rw [runOps, List.foldl_cons]
      exact ih (inv_applyOp op hinv) (paid_mem_applyOp op hinv ho hp) hp

theorem checkout_success {s : Store} {u : Nat} {po : Order} {s' : Store}
    (h : checkout s u = (.ok po, s')) :
    ∃ cart, findCart s u = some cart ∧ cart.items.isEmpty = false ∧
      po = { cart with isPaid := true, updatedAt := s.time } ∧
      s' = (saveOrder s { cart with isPaid := true }).2 := by
  rcases hfc : findCart s u with _ | cart
  · simp only [checkout, hfc] at h
    simp at h
  · simp only [checkout, hfc] at h
    by_cases hemp : cart.items.isEmpty
    · rw [if_pos hemp] at h
      simp at h
    · rw [if_neg hemp] at h
      have h1 := congrArg Prod.fst h
      have h2 := congrArg Prod.snd h
      simp only at h1 h2
      injection h1 with h1
      refine ⟨cart, rfl, by simpa using hemp, ?_, h2.symm⟩
      rw [← h1, saveOrder_def]

theorem foldl_add_sum {α M : Type} [AddCommMonoid M] (f : α → M) :
    ∀ (l : List α) (c : M),
      l.foldl (fun acc a => acc + f a) c = c + (l.map f).sum := by
  intro l
  induction l with
  | nil => intro c; simp
  | cons a t ih =>
      intro c
      rw [List.foldl_cons, ih, List.map_cons, List.sum_cons, add_assoc]

theorem total_eq_sum (items : List PopulatedLineItem) :
    total items =
      (items.map (fun li => li.item.price * (li.qty : ℚ))).sum := by
  rw [total, foldl_add_sum, zero_add]

theorem totalQty_eq_sum (items : List PopulatedLineItem) :
    totalQty items = (items.map PopulatedLineItem.qty).sum := by
  rw [totalQty, foldl_add_sum, zero_add]

theorem total_populate (c : Nat → Item) (items : List LineItem) :
    total (populate c items) =
      (items.map (fun li => (c li.item).price * (li.qty : ℚ))).sum := by
  rw [total_eq_sum, populate, List.map_map]
  rfl

theorem qtyOfItem_nil (A : Nat) : qtyOfItem A [] = 0 := rfl

theorem qtyOfItem_cons (A : Nat) (li : LineItem) (t : List LineItem) :
    qtyOfItem A (li :: t) =
      (if li.item = A then li.qty else 0) + qtyOfItem A t := by
  rw [qtyOfItem, List.filter_cons]
  by_cases h : li.item = A
  · simp [qtyOfItem, h]
  · simp [qtyOfItem, h]

theorem any_item_false {items : List LineItem} {A : Nat}
    (h : items.any (fun li => li.item == A) = false) :
    ∀ li ∈ items, li.item ≠ A := by
  intro li hli
  have := List.any_eq_false.mp h li hli
  simpa using this

theorem qtyOfItem_eq_zero {items : List LineItem} {A : Nat}
    (h : ∀ li ∈ items, li.item ≠ A) : qtyOfItem A items = 0 := by
  rw [qtyOfItem]
  have : items.filter (fun li => li.item == A) = [] := by
    rw [List.filter_eq_nil_iff]
    intro li hli
    simpa using h li hli
  rw [this]
  rfl

theorem map_item_ite (items : List LineItem) (A : Nat)
    (f : LineItem → Int) :
    (items.map (fun li =>
        if li.item == A then { li with qty := f li } else li)).map
      LineItem.item = items.map LineItem.item := by
  rw [List.map_map]
  apply List.map_congr_left
  intro li _
  by_cases h : li.item = A
  · simp [h]
  · simp [h]

theorem filter_ne_map_ite (items : List LineItem) (A : Nat)
    (f : LineItem → Int) :
    (items.map (fun li =>
        if li.item == A then { li with qty := f li } else li)).filter
      (fun li => li.item != A) =
      items.filter (fun li => li.item != A) := by
  induction items with
  | nil => rfl
  | cons li t ih =>
      rw [List.map_cons, List.filter_cons, List.filter_cons]
      by_cases h : li.item = A
      · simp only [h, beq_self_eq_true, if_true]
        simpa [h] using ih
      · simp only [show (li.item == A) = false by simpa using h, if_false,
          Bool.false_eq_true]
        simp only [show (li.item != A) = true by simpa using h, if_true]
        rw [ih]

theorem qtyOfItem_bump {items : List LineItem} {A : Nat} (q : Int)
    (hwf : LiWF items) (hany : items.any (fun li => li.item == A) = true) :
    qtyOfItem A (items.map (fun li =>
        if li.item == A then { li with qty := li.qty + q } else li)) =
      qtyOfItem A items + q := by
  induction items with
  | nil => cases hany
  | cons li t ih =>
      rw [LiWF, List.map_cons, List.nodup_cons] at hwf
      rw [List.map_cons]
      by_cases h : li.item = A
      · have htail : ∀ x ∈ t, x.item ≠ A := by
          intro x hx hxA
          exact hwf.1 (by
            rw [h, ← hxA]
            exact List.mem_map_of_mem LineItem.item hx)
        have htail' : ∀ x ∈ t.map (fun li =>
            if li.item == A then { li with qty := li.qty + q } else li),
            x.item ≠ A := by
          intro x hx
          have hmm : x.item ∈ (t.map (fun li =>
              if li.item == A then { li with qty := li.qty + q }
              else li)).map LineItem.item :=
            List.mem_map_of_mem LineItem.item hx
          rw [map_item_ite] at hmm
          rcases List.mem_map.mp hmm with ⟨y, hy, hyx⟩
          exact fun hxA => htail y hy (hyx.symm ▸ hxA)
        rw [show ((if li.item == A
              then { li with qty := li.qty + q } else li)) =
            { li with qty := li.qty + q } by simp [h]]
        rw [qtyOfItem_cons, qtyOfItem_cons,
            qtyOfItem_eq_zero htail, qtyOfItem_eq_zero htail']
        simp [h]
      · have hany' : t.any (fun li => li.item == A) = true := by
          rw [List.any_cons] at hany
          simpa [h] using hany
        rw [show ((if li.item == A
              then { li with qty := li.qty + q } else li)) = li by simp [h]]
        rw [qtyOfItem_cons, qtyOfItem_cons, ih hwf.2 hany']
        simp [h, add_assoc]

theorem setQty_pos_qty {items : List LineItem} {A : Nat}
    {newQty : Int} :
    ∀ li ∈ items.map (fun li =>
        if li.item == A then { li with qty := newQty } else li),
      li.item = A → li.qty = newQty := by
  intro li hli hA
  rcases List.mem_map.mp hli with ⟨y, hy, rfl⟩
  by_cases h : y.item = A
  · simp [h]
  · rw [show ((if y.item == A
        then { y with qty := newQty } else y)) = y by simp [h]] at hA ⊢
    exact absurd hA h

theorem addItem_eq {catalog : Nat → Option Item} {A : Nat} {itm : Item}
    (hcat : catalog A = some itm) (s : Store) (u : Nat) (q : Int) :
    addItem catalog s u A q =
      (.ok (saveOrder (getCart s u).2
          { (getCart s u).1 with
              items := addLineItem (getCart s u).1.items A q }).1,
       (saveOrder (getCart s u).2
          { (getCart s u).1 with
              items := addLineItem (getCart s u).1.items A q }).2) := by
  simp [addItem, hcat]

theorem sum_price_update (catalog : Nat → Item) (A : Nat) (p : ℚ) :
    ∀ items : List LineItem,
      (items.map (fun li =>
          ((Function.update catalog A { catalog A with price := p })
            li.item).price * (li.qty : ℚ))).sum
        = (items.map (fun li =>
            (catalog li.item).price * (li.qty : ℚ))).sum
          + (p - (catalog A).price) * ((qtyOfItem A items : Int) : ℚ) := by
  intro items
  induction items with
  | nil => simp [qtyOfItem_nil]
  | cons li t ih =>
      rw [List.map_cons, List.sum_cons, List.map_cons, List.sum_cons, ih,
        qtyOfItem_cons]
      by_cases h : li.item = A
      · rw [h, Function.update_same, if_pos rfl]
        push_cast
        ring
      · rw [Function.update_noteq h, if_neg h]
        push_cast
        ring

theorem findCart_after_checkout {s : Store} {u : Nat} {cart : Order}
    (hinv : Inv s) (hfc : findCart s u = some cart) :
    findCart (saveOrder s { cart with isPaid := true }).2 u = none := by
  rw [findCart, List.find?_eq_none]
  intro x hx
  rw [saveOrder_def] at hx
  simp only [List.mem_map] at hx
  rcases hx with ⟨y, hy, rfl⟩
  by_cases hid : y.id = cart.id
  · simp only [hid, beq_self_eq_true, if_true]
    simp [isCartOf]
  · simp only [show (y.id == ({ cart with isPaid := true } : Order).id) =
      false by simpa using hid, if_false, Bool.false_eq_true]
    intro hcy
    have hy_eq : y = cart :=
      countP_le_one_unique (hinv.2.2.1 u) y hy cart (findCart_mem hfc)
        hcy (findCart_isCart hfc)
    exact hid (congrArg Order.id hy_eq)

/-- Claim C1: in every store reachable from the empty store by cart
operations, every user has at most one ACTIVE (`isPaid = false`) order;
and each single cart operation (getCart, addItem, setItemQuantity,
checkout) preserves the store invariant, whose third component is the
single-active-cart bound. -/
theorem single_active_cart :
    (∀ (ops : List CartOp) (u : Nat),
        activeCount (runOps ops emptyStore) u ≤ 1) ∧
    (∀ (s : Store) (op : CartOp), Inv s → Inv (applyOp s op)) :=
  ⟨fun ops u => (inv_runOps ops emptyStore inv_emptyStore).2.2.1 u,
   fun _ op h => inv_applyOp op h⟩

/-- Witness for claim C1: a concrete operation sequence keeps the active
count of user 1 at one, and one concrete operation applied to the
well-formed empty store keeps the invariant. -/
theorem single_active_cart_witness :
    activeCount
        (runOps [CartOp.get 1, CartOp.add demoCatalog 1 7 1] emptyStore) 1
      ≤ 1 ∧
    Inv (applyOp emptyStore (CartOp.get 1)) :=
  ⟨single_active_cart.1 [CartOp.get 1, CartOp.add demoCatalog 1 7 1] 1,
   single_active_cart.2 emptyStore (CartOp.get 1) inv_emptyStore⟩

/-- Claim C2: `addItem` upserts: on a catalog item, it succeeds on the
ACTIVE cart; when a line item for A already exists the line-item count is
unchanged, the held quantity of A grows by q, and all other line items
are untouched; when none exists a single new line item with quantity q is
appended.  In particular two `addItem(A)` calls from the empty store
yield one line item for A with quantity 2. -/
theorem addItem_upserts (catalog : Nat → Option Item) (s : Store)
    (u A : Nat) (q : Int) (itm : Item) (hcat : catalog A = some itm)
    (hinv : Inv s) :
    (∃ saved s₂, addItem catalog s u A q = (.ok saved, s₂) ∧
      saved.user = u ∧ saved.isPaid = false ∧
      saved.items = addLineItem (getCart s u).1.items A q ∧
      ((getCart s u).1.items.any (fun li => li.item == A) = true →
        saved.items.length = (getCart s u).1.items.length ∧
        qtyOfItem A saved.items = qtyOfItem A (getCart s u).1.items + q ∧
        saved.items.filter (fun li => li.item != A)
          = (getCart s u).1.items.filter (fun li => li.item != A)) ∧
      ((getCart s u).1.items.any (fun li => li.item == A) = false →
        saved.items = (getCart s u).1.items ++ [{ item := A, qty := q }])) ∧
    (addItem catalog (addItem catalog emptyStore u A 1).2 u A 1).1
      = .ok { id := 0, user := u, items := [{ item := A, qty := 2 }],
              isPaid := false, createdAt := 0, updatedAt := 2 } := by
  have hwf : LiWF (getCart s u).1.items :=
    (inv_getCart u hinv).2.2.2 _ (getCart_mem s u)
  constructor
  · refine ⟨(saveOrder (getCart s u).2
        { (getCart s u).1 with
            items := addLineItem (getCart s u).1.items A q }).1,
      (saveOrder (getCart s u).2
        { (getCart s u).1 with
            items := addLineItem (getCart s u).1.items A q }).2,
      addItem_eq hcat s u q, ?_, ?_, rfl, ?_, ?_⟩
    · exact (isCartOf_iff.mp (getCart_isCart s u)).1
    · exact (isCartOf_iff.mp (getCart_isCart s u)).2
    · intro hany
      show (addLineItem (getCart s u).1.items A q).length = _ ∧
        qtyOfItem A (addLineItem (getCart s u).1.items A q) = _ ∧
        (addLineItem (getCart s u).1.items A q).filter _ = _
      rw [addLineItem, if_pos hany]
      exact ⟨List.length_map _ _, qtyOfItem_bump q hwf hany,
        filter_ne_map_ite _ _ _⟩
    · intro hnone
      show addLineItem (getCart s u).1.items A q = _
      rw [addLineItem, if_neg (by rw [hnone]; exact Bool.false_ne_true)]
  · rw [addItem_eq hcat, addItem_eq hcat]
    simp [getCart, findCart, saveOrder, addLineItem, isCartOf, emptyStore,
      freshOrder, List.find?]

/-- Witness for claim C2: the concrete double add of item 7 by user 1
from the empty store ends with exactly one line item of quantity 2. -/
theorem addItem_upserts_witness :
    (addItem demoCatalog (addItem demoCatalog emptyStore 1 7 1).2 1 7 1).1
      = .ok { id := 0, user := 1, items := [{ item := 7, qty := 2 }],
              isPaid := false, createdAt := 0, updatedAt := 2 } :=
  (addItem_upserts demoCatalog emptyStore 1 7 1 pizzaItem rfl
    inv_emptyStore).2

/-- Claim C3: on a cart holding a line item for A, `setItemQuantity`
succeeds; a non-positive new quantity removes the line item for A
entirely, a positive one overwrites the stored quantity of A and leaves
every other line item unchanged; in both cases the order itself is still
present in the store (even when it became empty). -/
theorem setItemQuantity_spec (s : Store) (u A : Nat) (newQty : Int)
    (hasA : (getCart s u).1.items.any (fun li => li.item == A) = true) :
    ∃ saved s₂, setItemQuantity s u A newQty = (.ok saved, s₂) ∧
      saved.id = (getCart s u).1.id ∧ saved.isPaid = false ∧
      (newQty ≤ 0 →
        saved.items
            = (getCart s u).1.items.filter (fun li => li.item != A) ∧
        ∀ li ∈ saved.items, li.item ≠ A) ∧
      (0 < newQty →
        saved.items.map LineItem.item
            = (getCart s u).1.items.map LineItem.item ∧
        (∀ li ∈ saved.items, li.item = A → li.qty = newQty) ∧
        saved.items.filter (fun li => li.item != A)
          = (getCart s u).1.items.filter (fun li => li.item != A)) ∧
      s₂.orders.any (fun o => o.id == saved.id) = true := by
  refine ⟨(saveOrder (getCart s u).2
      { (getCart s u).1 with
          items := setQty (getCart s u).1.items A newQty }).1,
    (saveOrder (getCart s u).2
      { (getCart s u).1 with
          items := setQty (getCart s u).1.items A newQty }).2,
    by simp [setItemQuantity, hasA], rfl,
    (isCartOf_iff.mp (getCart_isCart s u)).2, ?_, ?_, ?_⟩
  · intro hle
    have hset : setQty (getCart s u).1.items A newQty
        = (getCart s u).1.items.filter (fun li => li.item != A) := by
      rw [setQty, if_pos hle]
    constructor
    · exact hset
    · intro li hli
      have hli' : li ∈ (getCart s u).1.items.filter
          (fun li => li.item != A) := by
        rw [← hset]
        exact hli
      have := (List.mem_filter.mp hli').2
      simpa using this
  · intro hpos
    have hset : setQty (getCart s u).1.items A newQty
        = (getCart s u).1.items.map (fun li =>
            if li.item == A then { li with qty := newQty } else li) := by
      rw [setQty, if_neg (not_le.mpr hpos)]
    refine ⟨?_, ?_, ?_⟩
    · show (setQty (getCart s u).1.items A newQty).map LineItem.item = _
      rw [hset]
      exact map_item_ite _ _ _
    · intro li hli
      apply setQty_pos_qty li
      rw [← hset]
      exact hli
    · show (setQty (getCart s u).1.items A newQty).filter _ = _
      rw [hset]
      exact filter_ne_map_ite _ _ _
  · apply List.any_eq_true.mpr
    refine ⟨(saveOrder (getCart s u).2
        { (getCart s u).1 with
            items := setQty (getCart s u).1.items A newQty }).1, ?_,
      by simp⟩
    rw [saveOrder_def]
    exact List.mem_map.mpr ⟨(getCart s u).1, getCart_mem s u, by simp⟩

/-- Witness for claim C3: setting the quantity of item 7 to 0 in the
concrete one-item cart of user 1 empties the cart while the order (id 0)
survives in the store. -/
theorem setItemQuantity_spec_witness :
    ∃ saved s₂, setItemQuantity demoStore 1 7 0 = (.ok saved, s₂) ∧
      saved.items = [] ∧ s₂.orders.any (fun o => o.id == saved.id) = true := by
  obtain ⟨saved, s₂, heq, _, _, hrem, _, hkeep⟩ :=
    setItemQuantity_spec demoStore 1 7 0 (by decide)
  refine ⟨saved, s₂, heq, ?_, hkeep⟩
  rw [(hrem le_rfl).1]
  decide

/-- Claim C4: `setItemQuantity` on an item X absent from the cart fails
with `ItemNotInCart` for every quantity, leaves the store exactly as
`getCart` left it, and creates no line item: the cart of the user still
has its previous line items. -/
theorem setItemQuantity_not_in_cart (s : Store) (u X : Nat) (q : Int)
    (hno : (getCart s u).1.items.any (fun li => li.item == X) = false) :
    (setItemQuantity s u X q).1 = .error .ItemNotInCart ∧
    (setItemQuantity s u X q).2 = (getCart s u).2 ∧
    (getCart (setItemQuantity s u X q).2 u).1.items
      = (getCart s u).1.items := by
  have hred : setItemQuantity s u X q
      = (.error .ItemNotInCart, (getCart s u).2) := by
    simp [setItemQuantity, hno]
  refine ⟨by rw [hred], by rw [hred], ?_⟩
  rw [hred]
  show (getCart (getCart s u).2 u).1.items = _
  rw [getCart_idem]

/-- Witness for claim C4: user 1 never added item 7, so setting its
quantity to 5 in the empty store fails with `ItemNotInCart` and the cart
stays empty. -/
theorem setItemQuantity_not_in_cart_witness :
    (setItemQuantity emptyStore 1 7 5).1 = .error .ItemNotInCart ∧
    (getCart (setItemQuantity emptyStore 1 7 5).2 1).1.items = [] :=
  ⟨(setItemQuantity_not_in_cart emptyStore 1 7 5 (by decide)).1,
   (setItemQuantity_not_in_cart emptyStore 1 7 5 (by decide)).2.2⟩

/-- Claim C5: checkout of an ACTIVE order with zero line items fails with
`EmptyCartCheckout` and changes nothing: the cart keeps `isPaid = false`,
and the store — hence every order and every line item — is exactly the
one before the call; no order is created. -/
theorem checkout_empty_cart (s : Store) (u : Nat) (cart : Order)
    (hfc : findCart s u = some cart) (hempty : cart.items = []) :
    checkout s u = (.error .EmptyCartCheckout, s) ∧
    cart.isPaid = false ∧
    (checkout s u).2.orders = s.orders := by
  have hisEmpty : cart.items.isEmpty = true := by rw [hempty]; rfl
  refine ⟨by simp [checkout, hfc, hisEmpty], ?_,
    by simp [checkout, hfc, hisEmpty]⟩
  exact (isCartOf_iff.mp (findCart_isCart hfc)).2

/-- Witness for claim C5: checking out the concrete empty cart of user 1
fails with `EmptyCartCheckout` and leaves the store untouched. -/
theorem checkout_empty_cart_witness :
    findCart demoEmptyCartStore 1 = some demoEmptyCart ∧
    checkout demoEmptyCartStore 1
      = (.error .EmptyCartCheckout, demoEmptyCartStore) ∧
    demoEmptyCart.isPaid = false :=
  ⟨rfl, (checkout_empty_cart demoEmptyCartStore 1 demoEmptyCart rfl rfl).1,
   (checkout_empty_cart demoEmptyCartStore 1 demoEmptyCart rfl rfl).2.1⟩

/-- Claim C6: PAID is terminal: a paid order survives, unchanged, any
sequence of cart operations; and after a successful checkout, getCart for
the same user yields an empty ACTIVE order with a fresh id — never the
just-paid one. -/
theorem paid_is_terminal :
    (∀ (ops : List CartOp) (s : Store) (o : Order), Inv s →
        o ∈ s.orders → o.isPaid = true → o ∈ (runOps ops s).orders) ∧
    (∀ (s : Store) (u : Nat) (po : Order) (s' : Store), Inv s →
        checkout s u = (.ok po, s') →
        po.isPaid = true ∧
        (getCart s' u).1.isPaid = false ∧
        (getCart s' u).1.items = [] ∧
        (getCart s' u).1.id ≠ po.id) := by
  constructor
  · intro ops s o hinv ho hp
    exact paid_mem_runOps ops hinv ho hp
  · intro s u po s' hinv hck
    rcases checkout_success hck with ⟨cart, hfc, _hemp, hpo, hs'⟩
    subst hs'
    have hnone := findCart_after_checkout hinv hfc
    rw [getCart_of_none hnone]
    refine ⟨by rw [hpo], rfl, rfl, ?_⟩
    have hlt := hinv.2.1 cart (findCart_mem hfc)
    rw [hpo]
    intro hcontra
    have h2 : s.nextId = cart.id := hcontra
    omega

/-- Witness for claim C6: the concrete paid order of user 1 survives a
further operation, and after its checkout the user gets a distinct empty
ACTIVE cart. -/
theorem paid_is_terminal_witness :
    demoPaid ∈ (runOps [CartOp.get 2] demoStoreAfter).orders ∧
    demoPaid.isPaid = true ∧
    (getCart demoStoreAfter 1).1.isPaid = false ∧
    (getCart demoStoreAfter 1).1.items = [] ∧
    (getCart demoStoreAfter 1).1.id ≠ demoPaid.id := by
  have hinv : Inv demoStore :=
    inv_runOps [CartOp.add demoCatalog 1 7 1] emptyStore inv_emptyStore
  have hinvAfter : Inv demoStoreAfter := inv_applyOp (CartOp.chk 1) hinv
  have hpart2 := paid_is_terminal.2 demoStore 1 demoPaid demoStoreAfter
    hinv rfl
  exact ⟨paid_is_terminal.1 [CartOp.get 2] demoStoreAfter demoPaid
    hinvAfter (by decide) rfl, hpart2⟩

/-- Claim C9: the order history of a user consists exactly of that user's
orders with `isPaid = true`, sorted most recently saved (checked out)
first, and therefore never contains an ACTIVE cart of the user. -/
theorem history_spec (s : Store) (u : Nat) :
    (∀ o, o ∈ history s u ↔ o ∈ s.orders ∧ o.user = u ∧ o.isPaid = true) ∧
    (history s u).Sorted (fun a b => b.updatedAt ≤ a.updatedAt) ∧
    (∀ o ∈ history s u, isCartOf u o = false) := by
  haveI htot : IsTotal Order (fun a b => b.updatedAt ≤ a.updatedAt) :=
    ⟨fun a b => le_total b.updatedAt a.updatedAt⟩
  haveI htr : IsTrans Order (fun a b => b.updatedAt ≤ a.updatedAt) :=
    ⟨fun _ _ _ hab hbc => le_trans hbc hab⟩
  have hperm := List.perm_insertionSort
    (fun a b : Order => b.updatedAt ≤ a.updatedAt)
    (s.orders.filter (fun o => o.user == u && o.isPaid))
  have hmem : ∀ o, o ∈ history s u ↔
      o ∈ s.orders ∧ o.user = u ∧ o.isPaid = true := by
    intro o
    rw [history, hperm.mem_iff, List.mem_filter]
    simp [Bool.and_eq_true, and_assoc]
  refine ⟨hmem, ?_, ?_⟩
  · rw [history]
    exact List.sorted_insertionSort _ _
  · intro o ho
    have h := (hmem o).mp ho
    simp [isCartOf, h.2.2]

/-- Witness for claim C9: in the concrete store after checkout, the
history of user 1 contains the paid order, is sorted, and the active cart
predicate rejects each of its entries. -/
theorem history_spec_witness :
    demoPaid ∈ history demoStoreAfter 1 ∧
    (history demoStoreAfter 1).Sorted
      (fun a b => b.updatedAt ≤ a.updatedAt) ∧
    isCartOf 1 demoPaid = false := by
  have h1 := ((history_spec demoStoreAfter 1).1 demoPaid).mpr
    ⟨by decide, rfl, rfl⟩
  exact ⟨h1, (history_spec demoStoreAfter 1).2.1,
    (history_spec demoStoreAfter 1).2.2 demoPaid h1⟩

/-- Claim C7: for every populated order, the derived total equals the sum
over its line items of item price times quantity, and the derived item
count equals the sum of the quantities; on the worked example
[pizza qty 2 at 10.00, soda qty 1 at 2.50] they are 22.50 and 3.  Both
are plain functions of the populated line items: no field of `Order`
stores them. -/
theorem totals_are_sums :
    (∀ items : List PopulatedLineItem,
        total items =
          (items.map (fun li => li.item.price * (li.qty : ℚ))).sum) ∧
    (∀ items : List PopulatedLineItem,
        totalQty items = (items.map PopulatedLineItem.qty).sum) ∧
    total [{ item := pizzaItem, qty := 2 }, { item := sodaItem, qty := 1 }]
      = 45 / 2 ∧
    totalQty [{ item := pizzaItem, qty := 2 },
              { item := sodaItem, qty := 1 }] = 3 :=
  ⟨total_eq_sum, totalQty_eq_sum,
   by norm_num [total, pizzaItem, sodaItem], by decide⟩

/-- Claim C8: the displayed total of an order — including one already
checked out (`isPaid = true`) — is computed from the catalog price at
read time: updating the catalog price of item A shifts the displayed
total by (new price − old price) × quantity of A held, so a price change
after checkout changes the displayed total whenever the order holds a
nonzero quantity of A.  No price snapshot is taken at add time (line
items store only an item reference and a quantity). -/
theorem displayedTotal_follows_catalog (catalog : Nat → Item) (A : Nat)
    (p : ℚ) (o : Order) (_hpaid : o.isPaid = true) :
    displayedTotal (Function.update catalog A { catalog A with price := p }) o
      = displayedTotal catalog o
        + (p - (catalog A).price) * ((qtyOfItem A o.items : Int) : ℚ) ∧
    (qtyOfItem A o.items ≠ 0 → p ≠ (catalog A).price →
      displayedTotal
          (Function.update catalog A { catalog A with price := p }) o
        ≠ displayedTotal catalog o) := by
  have heq : displayedTotal
      (Function.update catalog A { catalog A with price := p }) o
      = displayedTotal catalog o
        + (p - (catalog A).price) * ((qtyOfItem A o.items : Int) : ℚ) := by
    rw [displayedTotal, displayedTotal, total_populate, total_populate]
    exact sum_price_update catalog A p o.items
  refine ⟨heq, ?_⟩
  intro hq hp hne
  rw [heq] at hne
  have h0 : (p - (catalog A).price) * ((qtyOfItem A o.items : Int) : ℚ)
      = 0 := by linarith
  rcases mul_eq_zero.mp h0 with h | h
  · exact hp (by linarith [sub_eq_zero.mp h])
  · exact hq (by exact_mod_cast h)

/-- Witness for claim C8 at a concrete paid order: raising the catalog
price of item 7 from 10.00 to 12.00 moves the displayed total of the
already-paid order from 20.00 to 24.00. -/
theorem displayedTotal_follows_catalog_witness :
    paidPizzaOrder.isPaid = true ∧
    displayedTotal pizzaCatalog paidPizzaOrder = 20 ∧
    displayedTotal
        (Function.update pizzaCatalog 7 { pizzaCatalog 7 with price := 12 })
        paidPizzaOrder
      = displayedTotal pizzaCatalog paidPizzaOrder
        + (12 - (pizzaCatalog 7).price)
          * ((qtyOfItem 7 paidPizzaOrder.items : Int) : ℚ) ∧
    displayedTotal
        (Function.update pizzaCatalog 7 { pizzaCatalog 7 with price := 12 })
        paidPizzaOrder = 24 :=
  ⟨rfl,
   by norm_num [displayedTotal, populate, total, pizzaCatalog, pizzaItem,
     paidPizzaOrder],
   (displayedTotal_follows_catalog pizzaCatalog 7 12 paidPizzaOrder rfl).1,
   by norm_num [displayedTotal, populate, total, pizzaCatalog, pizzaItem,
     paidPizzaOrder, Function.update_same]⟩

end GoatCafe

namespace CheckToken

/-- Claim C10: the `checkToken` middleware never rejects a request: it
always calls `next()` and never responds itself; with the header absent it
sets `req.user` to null and leaves `req.exp` unassigned; whenever a token
was present, `req.exp` is assigned (null unless verification succeeded);
whenever verification did not succeed, `req.user` and `req.exp` are null;
and with a valid token, `req.user` is the user payload of the token and
`req.exp` its expiry date. -/
theorem checkToken_never_rejects (authHeader : Option String)
    (verify : String → VerifyOutcome) :
    ((checkToken authHeader verify).nextCalled = true ∧
     (checkToken authHeader verify).responded = false) ∧
    (authHeader = none →
      checkToken authHeader verify =
        { user := none, exp := none, expAssigned := false,
          nextCalled := true, responded := false }) ∧
    (∀ hdr, authHeader = some hdr → hdr ≠ "" →
      (checkToken authHeader verify).expAssigned = true) ∧
    ((∀ t u e, authHeader.bind tokenOf = some t → verify t ≠ .ok u e) →
      (checkToken authHeader verify).user = none ∧
      (checkToken authHeader verify).exp = none) ∧
    (∀ hdr t u e, authHeader = some hdr → tokenOf hdr = some t →
      verify t = .ok u e →
      (checkToken authHeader verify).user = some u ∧
      (checkToken authHeader verify).exp = some (e * 1000)) := by
  rcases authHeader with _ | hdr
  · refine ⟨⟨rfl, rfl⟩, fun _ => rfl, ?_, fun _ => ⟨rfl, rfl⟩, ?_⟩
    · intro hdr h
      cases h
    · intro hdr t u e h
      cases h
  · by_cases hemp : hdr = ""
    · subst hemp
      refine ⟨⟨rfl, rfl⟩, ?_, ?_, fun _ => ⟨rfl, rfl⟩, ?_⟩
      · intro h
        cases h
      · intro hdr heq hne
        injection heq with heq
        exact absurd heq.symm hne
      · intro hdr t u e heq htok hv
        injection heq with heq
        rw [← heq] at htok
        rw [show tokenOf ("") = none from rfl] at htok
        cases htok
    · rcases htok : tokenOf hdr with _ | tok
      · refine ⟨⟨?_, ?_⟩, ?_, ?_, ?_, ?_⟩
        · simp [checkToken, hemp, htok]
        · simp [checkToken, hemp, htok]
        · intro h
          cases h
        · intro hdr' heq _
          injection heq with heq
          subst heq
          simp [checkToken, hemp, htok]
        · intro _
          constructor <;> simp [checkToken, hemp, htok]
        · intro hdr' t u e heq htok' hv
          injection heq with heq
          subst heq
          rw [htok] at htok'
          cases htok'
      · cases hv : verify tok with
        | ok u0 e0 =>
          refine ⟨⟨?_, ?_⟩, ?_, ?_, ?_, ?_⟩
          · simp [checkToken, hemp, htok, hv]
          · simp [checkToken, hemp, htok, hv]
          · intro h
            cases h
          · intro hdr' heq _
            injection heq with heq
            subst heq
            simp [checkToken, hemp, htok, hv]
          · intro hno
            exact absurd hv (hno tok u0 e0 (by simp [htok]))
          · intro hdr' t u e heq htok' hv'
            injection heq with heq
            subst heq
            rw [htok] at htok'
            injection htok' with htok'
            subst htok'
            rw [hv] at hv'
            injection hv' with h1 h2
            subst h1
            subst h2
            constructor <;> simp [checkToken, hemp, htok, hv]
        | err =>
          refine ⟨⟨?_, ?_⟩, ?_, ?_, ?_, ?_⟩
          · simp [checkToken, hemp, htok, hv]
          · simp [checkToken, hemp, htok, hv]
          · intro h
            cases h
          · intro hdr' heq _
            injection heq with heq
            subst heq
            simp [checkToken, hemp, htok, hv]
          · intro _
            constructor <;> simp [checkToken, hemp, htok, hv]
          · intro hdr' t u e heq htok' hv'
            injection heq with heq
            subst heq
            rw [htok] at htok'
            injection htok' with htok'
            subst htok'
            rw [hv] at hv'
            cases hv'

/-- Witness for claim C10 at concrete headers: a valid bearer token
passes the user payload through with `next()`, and a malformed header
yields a null user while still calling `next()`. -/
theorem checkToken_never_rejects_witness :
    ((some ("Bearer good") : Option String) = some ("Bearer good") ∧
     tokenOf ("Bearer good") = some ("good") ∧
     demoVerify ("good") = .ok { id := 3, name := "alice" } 5) ∧
    (checkToken (some ("Bearer good")) demoVerify).user
      = some { id := 3, name := "alice" } ∧
    (checkToken (some ("Bearer good")) demoVerify).exp = some 5000 ∧
    (checkToken (some ("garbage")) demoVerify).user = none ∧
    (checkToken (some ("garbage")) demoVerify).nextCalled = true :=
  ⟨⟨rfl, by decide, by decide⟩,
   ((checkToken_never_rejects (some ("Bearer good")) demoVerify).2.2.2.2
      ("Bearer good") ("good") { id := 3, name := "alice" } 5 rfl (by decide)
      (by decide)).1,
   ((checkToken_never_rejects (some ("Bearer good")) demoVerify).2.2.2.2
      ("Bearer good") ("good") { id := 3, name := "alice" } 5 rfl (by decide)
      (by decide)).2,
   ((checkToken_never_rejects (some ("garbage")) demoVerify).2.2.2.1
      (by
        intro t u e htok
        rw [show (some ("garbage") : Option String).bind tokenOf = none from
          by decide] at htok
        exact Option.noConfusion htok)).1,
   ((checkToken_never_rejects (some ("garbage")) demoVerify).1).1⟩

end CheckToken
